import Mathlib

/-!
Verification of the core reconciliation algorithm of `conciliador.py`.

The core function `conciliar(df_banco, df_ventas, tolerancia_horas=24)` works on
cleaned records having three relevant fields: `idcuenta` (a string), `importe`
(a float rounded to 2 decimals) and `fecha` (a datetime).  We embed a record as
a triple: the account id as a `String`, the amount as an integer number of
cents, and the timestamp as an integer number of seconds.  The tolerance
`pd.Timedelta(hours=tolerancia_horas)` becomes `toleranciaHoras * 3600`
seconds.

`pd.merge_asof(left, right, on='fecha', by=k, direction='nearest',
tolerance=tol)` is a left join: for every left row it searches, among right
rows with the same `by` key, the last row (in sorted order) whose `fecha` is
`≤` the left `fecha` and within tolerance (the backward candidate) and the
first row whose `fecha` is `≥` the left `fecha` and within tolerance (the
forward candidate), and keeps the backward candidate when the two distances
tie.  The output has one row per left row, ordered by the sorted left frame;
a left row with no candidate gets a null right side, modelled with `Option`.
`sort_values('fecha')` is modelled with a stable sort by `fecha`; the source
uses pandas' default sort whose order among equal timestamps is not specified,
and the stable order is the refinement chosen here.

The key column `df['idcuenta'] + df['importe'].astype(str)` concatenates the
account id with the decimal rendering of the float amount (`str(100.0)` is
`"100.0"`, `str(95.05)` is `"95.05"`), which `importeStr` reproduces for
amounts given in cents.
-/

namespace Conciliacion

/-- A cleaned transaction record: account id, amount in cents, timestamp in
seconds. -/
structure Rec where
  idcuenta : String
  importe : Int
  fecha : Int
  deriving DecidableEq

/-- Python's `str()` of a 2-decimal float, for an amount given in cents:
`importeStr 10000 = "100.0"`, `importeStr 9505 = "95.05"`,
`importeStr 9550 = "95.5"`. -/
def importeStr (n : Int) : String :=
  let sign := if n < 0 then "-" else ""
  let m := n.natAbs
  let intPart := m / 100
  let frac := m % 100
  let fracStr :=
    if frac % 10 = 0 then toString (frac / 10)
    else if frac < 10 then "0" ++ toString frac
    else toString frac
  sign ++ toString intPart ++ "." ++ fracStr

/-- The tolerance-pass grouping key, line 54/55 of the source:
`df['idcuenta'] + df['importe'].astype(str)`. -/
def keyOf (r : Rec) : String := r.idcuenta ++ importeStr r.importe

/-- Ascending timestamp order, the comparison used by `sort_values('fecha')`. -/
def fle (a b : Rec) : Prop := a.fecha ≤ b.fecha

instance : DecidableRel fle := fun a b => inferInstanceAs (Decidable (a.fecha ≤ b.fecha))

instance : IsTotal Rec fle := ⟨fun a b => Int.le_total a.fecha b.fecha⟩

instance : IsTrans Rec fle := ⟨fun _ _ _ h1 h2 => le_trans h1 h2⟩

/-- `sort_values('fecha')`: sort by timestamp ascending (stable). -/
def sortFecha (l : List Rec) : List Rec := List.insertionSort fle l

/-- Last element of the list satisfying `p`, the backward-scan primitive of
`merge_asof` (the backward candidate is the last qualifying row). -/
def lastSat (p : Rec → Bool) : List Rec → Option Rec
  | [] => none
  | x :: xs =>
    match lastSat p xs with
    | some y => some y
    | none => if p x then some x else none

/-- Choice between the backward and the forward candidate of a `nearest` asof
join for the left row `l`: the only candidate when one side is missing, and on
a distance tie the backward one. -/
def nearestChoice (l : Rec) : Option Rec → Option Rec → Option Rec
  | none, none => none
  | some x, none => some x
  | none, some y => some y
  | some x, some y => if l.fecha - x.fecha ≤ y.fecha - l.fecha then some x else some y

/-- The right-hand row that `merge_asof(..., by=key, direction='nearest',
tolerance=tol)` associates to the left row `l`: the backward candidate (last
sorted right row with the same key, `fecha ≤ l.fecha`, within tolerance), the
forward candidate (first such row with `fecha ≥ l.fecha`), the backward one
preferred on distance ties. -/
def asofNearest (key : Rec → String) (tol : Int) (right : List Rec) (l : Rec) :
    Option Rec :=
  nearestChoice l
    (lastSat
      (fun r => decide (key r = key l ∧ r.fecha ≤ l.fecha ∧ l.fecha - r.fecha ≤ tol)) right)
    (right.find?
      (fun r => decide (key r = key l ∧ l.fecha ≤ r.fecha ∧ r.fecha - l.fecha ≤ tol)))

/-- `pd.merge_asof(left.sort_values('fecha'), right.sort_values('fecha'),
on='fecha', by=key, direction='nearest', tolerance=tol)`: one output row per
left row, in sorted left order; the right side is `none` when no candidate
qualified. -/
def mergeAsof (key : Rec → String) (left right : List Rec) (tol : Int) :
    List (Rec × Option Rec) :=
  (sortFecha left).map (fun l => (l, asofNearest key tol (sortFecha right) l))

/-- The four outputs of `conciliar`, in source order: `conciliados_tol` (with
the key column dropped), `ventas_sin_depositar`, `depositos_sin_registro`,
`dif_importe`. -/
structure ConciliarResult where
  conciliados_tol : List (Rec × Option Rec)
  ventas_sin_depositar : List Rec
  depositos_sin_registro : List Rec
  dif_importe : List (Rec × Rec)
  deriving DecidableEq

/-- `pd.Timedelta(hours=h)` in seconds. -/
def hoursToSeconds (h : Nat) : Int := (h : Int) * 3600

/-- The core `conciliar(df_banco, df_ventas, tolerancia_horas)` (lines 40-87).
The working frames are copies of the inputs; the exact inner merge of lines
45-52 is computed by the source but not returned, so it is not modelled.
`conciliados_keys = set(conciliados_tol['key'].dropna())` is the set of values
of the `by` column of the left join: the key of every bank row, matched or not
(on cleaned records the key is never null, so `dropna` removes nothing).
`ventas_sin_depositar` / `depositos_sin_registro` keep the rows whose key is
not in that set (`~isin`), in original input order.  `dif_importe` re-runs the
asof merge keyed on `idcuenta` alone, keeps rows whose two amounts differ
(a null sale amount counts as different in pandas) and then drops rows with a
null sale side, so the rows kept are exactly those with a sale present and a
different amount. -/
def conciliar (banco ventas : List Rec) (toleranciaHoras : Nat) : ConciliarResult :=
  let tol := hoursToSeconds toleranciaHoras
  let conciliadosTol := mergeAsof keyOf banco ventas tol
  let conciliadosKeys := conciliadosTol.map (fun p => keyOf p.fst)
  let ventasSin := ventas.filter (fun v => !(decide (keyOf v ∈ conciliadosKeys)))
  let depositosSin := banco.filter (fun b => !(decide (keyOf b ∈ conciliadosKeys)))
  let difRows := mergeAsof (fun r => r.idcuenta) banco ventas tol
  let difImporte := difRows.filterMap (fun p =>
    match p.snd with
    | some v => if p.fst.importe ≠ v.importe then some (p.fst, v) else none
    | none => none)
  ⟨conciliadosTol, ventasSin, depositosSin, difImporte⟩

/-- A call to `conciliar` as the caller sees it: the returned result together
with the caller's two frames after the call.  Lines 41-42 copy the inputs
(`df_banco.copy()`, `df_ventas.copy()`) and every later mutation (the `key`
column assignment, the sorts) happens on the copies, so the caller's frames
are returned untouched. -/
def conciliarCall (banco ventas : List Rec) (toleranciaHoras : Nat) :
    ConciliarResult × List Rec × List Rec :=
  (conciliar banco ventas toleranciaHoras, banco, ventas)

/-! ### Helper lemmas -/

/-- Records with the same account and amount get the same grouping key. -/
theorem keyOf_congr {r1 r2 : Rec} (h1 : r1.idcuenta = r2.idcuenta)
    (h2 : r1.importe = r2.importe) : keyOf r1 = keyOf r2 := by
  simp [keyOf, h1, h2]

/-- A successful backward scan returns a member satisfying the predicate. -/
theorem lastSat_eq_some {p : Rec → Bool} :
    ∀ {l : List Rec} {x : Rec}, lastSat p l = some x → p x = true ∧ x ∈ l := by
  intro l
  induction l with
  | nil => intro x h; simp [lastSat] at h
  | cons a as ih =>
    intro x h
    rw [lastSat] at h
    cases hrec : lastSat p as with
    | some y =>
      rw [hrec] at h
      cases h
      have hy := ih hrec
      exact ⟨hy.1, List.mem_cons_of_mem _ hy.2⟩
    | none =>
      rw [hrec] at h
      by_cases hp : p a
      · rw [if_pos hp] at h
        cases h
        exact ⟨hp, List.mem_cons_self _ _⟩
      · rw [if_neg hp] at h
        cases h

/-- On a one-element right side the asof lookup returns the single record
exactly when it shares the key and lies within tolerance on either side. -/
theorem asofNearest_singleton (key : Rec → String) (tol : Int) (s l : Rec) :
    asofNearest key tol [s] l =
      if key s = key l ∧ l.fecha - s.fecha ≤ tol ∧ s.fecha - l.fecha ≤ tol
      then some s else none := by
  by_cases h1 : key s = key l ∧ s.fecha ≤ l.fecha ∧ l.fecha - s.fecha ≤ tol
  · by_cases h2 : key s = key l ∧ l.fecha ≤ s.fecha ∧ s.fecha - l.fecha ≤ tol
    · rw [if_pos ⟨h1.1, h1.2.2, h2.2.2⟩]
      simp [asofNearest, nearestChoice, lastSat, List.find?, h1, h2]
    · obtain ⟨hk1, hb1, ht1⟩ := h1
      have hlt : ¬(l.fecha ≤ s.fecha) := fun hle => h2 ⟨hk1, hle, by omega⟩
      rw [if_pos ⟨hk1, ht1, by omega⟩]
      simp [asofNearest, nearestChoice, lastSat, List.find?, hk1, hb1, ht1, hlt]
  · by_cases h2 : key s = key l ∧ l.fecha ≤ s.fecha ∧ s.fecha - l.fecha ≤ tol
    · obtain ⟨hk2, hf2, ht2⟩ := h2
      have hlt : ¬(s.fecha ≤ l.fecha) := fun hle => h1 ⟨hk2, hle, by omega⟩
      rw [if_pos ⟨hk2, by omega, ht2⟩]
      simp [asofNearest, nearestChoice, lastSat, List.find?, hk2, hf2, ht2, hlt]
    · have hC : ¬(key s = key l ∧ l.fecha - s.fecha ≤ tol ∧ s.fecha - l.fecha ≤ tol) := by
        intro hc
        rcases le_total s.fecha l.fecha with hle | hle
        · exact h1 ⟨hc.1, hle, hc.2.1⟩
        · exact h2 ⟨hc.1, hle, hc.2.2⟩
      rw [if_neg hC]
      by_cases hk : key s = key l
      · have n1 : ¬(s.fecha ≤ l.fecha ∧ l.fecha ≤ tol + s.fecha) := fun hc => h1 ⟨hk, hc.1, by omega⟩
        have n2 : ¬(l.fecha ≤ s.fecha ∧ s.fecha ≤ tol + l.fecha) := fun hc => h2 ⟨hk, hc.1, by omega⟩
        simp only [asofNearest, nearestChoice, lastSat, List.find?, ← Bool.decide_and]
        simp [hk, n1, n2]
      · simp [asofNearest, nearestChoice, lastSat, List.find?, hk]

/-- The chosen nearest candidate is one of the two candidates. -/
theorem nearestChoice_eq_some {l x : Rec} {o1 o2 : Option Rec}
    (h : nearestChoice l o1 o2 = some x) : o1 = some x ∨ o2 = some x := by
  cases o1 with
  | none =>
    cases o2 with
    | none => exact absurd h (by simp [nearestChoice])
    | some y => right; simpa [nearestChoice] using h
  | some a =>
    cases o2 with
    | none => left; simpa [nearestChoice] using h
    | some y =>
      simp only [nearestChoice] at h
      split_ifs at h
      · left; exact h
      · right; exact h

/-- Whatever the asof lookup returns is a right-side record with the left
row's key whose timestamp lies within tolerance on both sides. -/
theorem asofNearest_some {key : Rec → String} {tol : Int} {right : List Rec} {l x : Rec}
    (hx : asofNearest key tol right l = some x) :
    x ∈ right ∧ key x = key l ∧ l.fecha - x.fecha ≤ tol ∧ x.fecha - l.fecha ≤ tol := by
  simp only [asofNearest] at hx
  rcases nearestChoice_eq_some hx with hb | hf
  · obtain ⟨hp, hm⟩ := lastSat_eq_some hb
    simp only [decide_eq_true_eq] at hp
    exact ⟨hm, hp.1, hp.2.2, by omega⟩
  · have hp := List.find?_some hf
    have hm := List.mem_of_find?_eq_some hf
    simp only [decide_eq_true_eq] at hp
    exact ⟨hm, hp.1, by omega, hp.2.2⟩

/-- On a timestamp-sorted list, the backward scan succeeds whenever some
member satisfies the predicate, and its result has a timestamp at least that
member's. -/
theorem lastSat_max {p : Rec → Bool} :
    ∀ {l : List Rec}, List.Sorted fle l → ∀ {a : Rec}, a ∈ l → p a = true →
      ∃ x, lastSat p l = some x ∧ p x = true ∧ x ∈ l ∧ a.fecha ≤ x.fecha := by
  intro l
  induction l with
  | nil => intro _ a ha _; exact absurd ha (List.not_mem_nil a)
  | cons b bs ih =>
    intro hs a ha hp
    have hs' := List.sorted_cons.mp hs
    rcases List.mem_cons.mp ha with rfl | hmem
    · cases hrec : lastSat p bs with
      | some y =>
        have hy := lastSat_eq_some hrec
        refine ⟨y, ?_, hy.1, List.mem_cons_of_mem _ hy.2, hs'.1 y hy.2⟩
        simp only [lastSat, hrec]
      | none =>
        refine ⟨a, ?_, hp, List.mem_cons_self _ _, le_refl _⟩
        simp only [lastSat, hrec, if_pos hp]
    · obtain ⟨x, hx, hpx, hxm, hfx⟩ := ih hs'.2 hmem hp
      refine ⟨x, ?_, hpx, List.mem_cons_of_mem _ hxm, hfx⟩
      simp only [lastSat, hx]

/-- When the sorted right side holds a record with the left row's key at the
left row's exact timestamp, the asof lookup succeeds and returns a record with
that key at that exact timestamp. -/
theorem asofNearest_exact {key : Rec → String} {tol : Int} {right : List Rec} {l s : Rec}
    (hsort : List.Sorted fle right) (hs : s ∈ right) (hk : key s = key l)
    (hf : s.fecha = l.fecha) (htol : 0 ≤ tol) :
    ∃ x, asofNearest key tol right l = some x ∧ x ∈ right ∧ key x = key l ∧
      x.fecha = l.fecha := by
  have hps : (fun r => decide (key r = key l ∧ r.fecha ≤ l.fecha ∧ l.fecha - r.fecha ≤ tol)) s
      = true := by
    simp only [decide_eq_true_eq]
    exact ⟨hk, le_of_eq hf, by omega⟩
  obtain ⟨x, hx, hpx, hxm, hxf⟩ := lastSat_max
    (p := fun r => decide (key r = key l ∧ r.fecha ≤ l.fecha ∧ l.fecha - r.fecha ≤ tol))
    hsort hs hps
  simp only [decide_eq_true_eq] at hpx
  have hxfe : x.fecha = l.fecha := le_antisymm hpx.2.1 (hf ▸ hxf)
  have hfind : ∃ y, List.find?
      (fun r => decide (key r = key l ∧ l.fecha ≤ r.fecha ∧ r.fecha - l.fecha ≤ tol)) right
      = some y := by
    rw [← Option.isSome_iff_exists, List.find?_isSome]
    exact ⟨s, hs, by simp only [decide_eq_true_eq]; exact ⟨hk, le_of_eq hf.symm, by omega⟩⟩
  obtain ⟨y, hy⟩ := hfind
  have hpy := List.find?_some hy
  simp only [decide_eq_true_eq] at hpy
  refine ⟨x, ?_, hxm, hpx.1, hxfe⟩
  simp only [asofNearest, hx, hy, nearestChoice]
  rw [if_pos (by omega)]

/-! ### Claims -/

/-- C1: the residual sets are NOT derived from the keys that achieved a
pairing.  `conciliados_keys` collects the `by` column of the left join, which
holds the key of every bank row whether or not a sale matched, so
`depositos_sin_registro` is empty on every input, and on the spec's example
(bank = A/100.00/Jan-01, sales = A/100.00/Jan-05, tolerance 24h, timestamps
4 days = 345600 s apart) both residual outputs are empty and the single
matched row carries no sale, even though no pairing succeeded. -/
theorem c1_residual_keyset_bug :
    (∀ (banco ventas : List Rec) (h : Nat),
      (conciliar banco ventas h).depositos_sin_registro = []) ∧
    (conciliar [⟨"A", 10000, 0⟩] [⟨"A", 10000, 345600⟩] 24).ventas_sin_depositar = [] ∧
    (conciliar [⟨"A", 10000, 0⟩] [⟨"A", 10000, 345600⟩] 24).depositos_sin_registro = [] ∧
    (conciliar [⟨"A", 10000, 0⟩] [⟨"A", 10000, 345600⟩] 24).conciliados_tol
      = [(⟨"A", 10000, 0⟩, none)] := by
  refine ⟨?_, by decide, by decide, by decide⟩
  intro banco ventas h
  simp only [conciliar, mergeAsof, List.map_map]
  rw [List.filter_eq_nil_iff]
  intro a ha
  simp only [Bool.not_eq_true', decide_eq_false_iff_not, not_not, List.mem_map,
    Function.comp]
  exact ⟨a, (List.mem_insertionSort fle).mpr ha, rfl⟩

/-- C2: the partition property fails on the code.  For bank = B/50.00 at t=0
and sale = B/50.00 at t=500000 s (outside the 24h tolerance), the only matched
row has a null sale side, and `ventas_sin_depositar` is empty because the
sale's key occurs among the bank keys — so the sale record appears in neither
`matched` nor `unmatched_sales`. -/
theorem c2_sale_in_neither_output :
    (conciliar [⟨"B", 5000, 0⟩] [⟨"B", 5000, 500000⟩] 24).conciliados_tol
      = [(⟨"B", 5000, 0⟩, none)] ∧
    (conciliar [⟨"B", 5000, 0⟩] [⟨"B", 5000, 500000⟩] 24).ventas_sin_depositar = [] := by
  decide

/-- C3 counterexample: the claim fails on inputs where a second sale record
collides on the concatenated key.  Bank row (account "A", amount 10.00, t=500)
and sale (account "A", amount 10.00, t=500) share account, amount and an
identical timestamp, yet the matched output pairs the bank row with the
colliding sale (account "A1", amount 0.00, t=500) — same key "A10.0", same
distance 0, and the backward scan prefers the later-listed record — so the
two records do not appear together as a pair. -/
theorem c3_collision_counterexample :
    (Rec.mk "A" 1000 500).idcuenta = "A" ∧ (Rec.mk "A1" 0 500).idcuenta = "A1" ∧
    (conciliar [⟨"A", 1000, 500⟩] [⟨"A", 1000, 500⟩, ⟨"A1", 0, 500⟩] 24).conciliados_tol
      = [(⟨"A", 1000, 500⟩, some ⟨"A1", 0, 500⟩)] := by
  decide

/-- C3 amended: if additionally every sale record carrying the bank record's
MatchKey really has the bank record's account and amount (no concatenation
collision on that key), then a bank record and a sale record sharing account,
amount and an identical timestamp appear together as a pair in the matched
output, for any tolerance (in hours) ≥ 0. -/
theorem c3_exact_timestamp_pairing (banco ventas : List Rec) (h : Nat) (b s : Rec)
    (hb : b ∈ banco) (hs : s ∈ ventas)
    (hid : s.idcuenta = b.idcuenta) (him : s.importe = b.importe) (hfe : s.fecha = b.fecha)
    (hcol : ∀ v ∈ ventas, keyOf v = keyOf b → v.idcuenta = b.idcuenta ∧ v.importe = b.importe) :
    (b, some s) ∈ (conciliar banco ventas h).conciliados_tol := by
  have hk : keyOf s = keyOf b := keyOf_congr hid him
  have hsort : List.Sorted fle (sortFecha ventas) := List.sorted_insertionSort fle ventas
  have hs' : s ∈ sortFecha ventas := (List.mem_insertionSort fle).mpr hs
  have htol : (0 : Int) ≤ hoursToSeconds h := by simp only [hoursToSeconds]; omega
  obtain ⟨x, hx, hxm, hxk, hxf⟩ := asofNearest_exact hsort hs' hk hfe htol
  have hxv : x ∈ ventas := (List.mem_insertionSort fle).mp hxm
  obtain ⟨hxi, hxa⟩ := hcol x hxv hxk
  have hxs : x = s := by
    have e1 : x.idcuenta = s.idcuenta := by rw [hxi, hid]
    have e2 : x.importe = s.importe := by rw [hxa, him]
    have e3 : x.fecha = s.fecha := by rw [hxf, hfe]
    cases x
    cases s
    simp_all
  rw [← hxs]
  simp only [conciliar, mergeAsof]
  have hb' : b ∈ sortFecha banco := (List.mem_insertionSort fle).mpr hb
  have hmem := List.mem_map_of_mem
    (fun l => (l, asofNearest keyOf (hoursToSeconds h) (sortFecha ventas) l)) hb'
  simpa only [hx] using hmem

/-- C3 amended, witness: a bank record and a sale record, both account "A",
amount 100.00, t=5, are paired in the matched output at tolerance 24h. -/
theorem c3_exact_timestamp_pairing_witness :
    ((⟨"A", 10000, 5⟩ : Rec), some (⟨"A", 10000, 5⟩ : Rec)) ∈
      (conciliar [⟨"A", 10000, 5⟩] [⟨"A", 10000, 5⟩] 24).conciliados_tol :=
  c3_exact_timestamp_pairing [⟨"A", 10000, 5⟩] [⟨"A", 10000, 5⟩] 24
    ⟨"A", 10000, 5⟩ ⟨"A", 10000, 5⟩ (by decide) (by decide) rfl rfl rfl (by decide)

/-- C4: the tolerance boundary is inclusive.  For a bank record and sale
records with the bank record's MatchKey, one exactly `tolerance` seconds away
and one `tolerance + 1` seconds away (one second being the time unit of the
embedding), the first is paired in the matched output and the second is not
(its row keeps a null sale side). -/
theorem c4_tolerance_boundary (b s1 s2 : Rec) (h : Nat)
    (hk1 : keyOf s1 = keyOf b) (hk2 : keyOf s2 = keyOf b)
    (h1 : (s1.fecha - b.fecha).natAbs = 3600 * h)
    (h2 : (s2.fecha - b.fecha).natAbs = 3600 * h + 1) :
    (conciliar [b] [s1] h).conciliados_tol = [(b, some s1)] ∧
    (conciliar [b] [s2] h).conciliados_tol = [(b, none)] := by
  constructor
  · simp only [conciliar, mergeAsof]
    have e1 : sortFecha [b] = [b] := rfl
    have e2 : sortFecha [s1] = [s1] := rfl
    rw [e1, e2, List.map_singleton, asofNearest_singleton,
      if_pos ⟨hk1, by simp only [hoursToSeconds]; omega, by simp only [hoursToSeconds]; omega⟩]
  · have hn : ¬(keyOf s2 = keyOf b ∧ b.fecha - s2.fecha ≤ hoursToSeconds h ∧
        s2.fecha - b.fecha ≤ hoursToSeconds h) := by
      intro hc
      obtain ⟨-, hc1, hc2⟩ := hc
      simp only [hoursToSeconds] at hc1 hc2
      omega
    simp only [conciliar, mergeAsof]
    have e1 : sortFecha [b] = [b] := rfl
    have e2 : sortFecha [s2] = [s2] := rfl
    rw [e1, e2, List.map_singleton, asofNearest_singleton, if_neg hn]

/-- C4, witness: at tolerance 24h, a sale 86400 s away is paired and a sale
86401 s away is not. -/
theorem c4_tolerance_boundary_witness :
    (conciliar [⟨"A", 1000, 0⟩] [⟨"A", 1000, 86400⟩] 24).conciliados_tol
      = [(⟨"A", 1000, 0⟩, some ⟨"A", 1000, 86400⟩)] ∧
    (conciliar [⟨"A", 1000, 0⟩] [⟨"A", 1000, 86401⟩] 24).conciliados_tol
      = [(⟨"A", 1000, 0⟩, none)] :=
  c4_tolerance_boundary ⟨"A", 1000, 0⟩ ⟨"A", 1000, 86400⟩ ⟨"A", 1000, 86401⟩ 24
    rfl rfl (by decide) (by decide)

/-- C5: every row of the discrepancies output has a present sale side whose
amount differs from the bank amount, and that sale record comes from the sales
input, carries the bank row's account, and lies within the tolerance window —
so no row pairs equal amounts and no row stands for a bank record without a
same-account sale within tolerance. -/
theorem c5_dif_importe_filter (banco ventas : List Rec) (h : Nat) (p : Rec × Rec)
    (hp : p ∈ (conciliar banco ventas h).dif_importe) :
    p.fst.importe ≠ p.snd.importe ∧ p.snd ∈ ventas ∧ p.snd.idcuenta = p.fst.idcuenta ∧
    p.fst.fecha - p.snd.fecha ≤ hoursToSeconds h ∧
    p.snd.fecha - p.fst.fecha ≤ hoursToSeconds h := by
  simp only [conciliar, mergeAsof] at hp
  rw [List.mem_filterMap] at hp
  obtain ⟨q, hq, hfq⟩ := hp
  rw [List.mem_map] at hq
  obtain ⟨lrec, hl, rfl⟩ := hq
  dsimp only at hfq
  cases hv : asofNearest (fun r => r.idcuenta) (hoursToSeconds h) (sortFecha ventas) lrec with
  | none => rw [hv] at hfq; cases hfq
  | some v =>
    rw [hv] at hfq
    dsimp only at hfq
    split_ifs at hfq with hne
    · cases hfq
      obtain ⟨hm, hid, hd1, hd2⟩ := asofNearest_some hv
      exact ⟨hne, (List.mem_insertionSort fle).mp hm, hid, hd1, hd2⟩

/-- C5, witness: bank A/100.00 at t=0 against sale A/95.00 at t=1800 produces
a discrepancy row satisfying all the filter properties. -/
theorem c5_dif_importe_filter_witness :
    (Rec.mk "A" 10000 0).importe ≠ (Rec.mk "A" 9500 1800).importe ∧
    Rec.mk "A" 9500 1800 ∈ [Rec.mk "A" 9500 1800] ∧
    (Rec.mk "A" 9500 1800).idcuenta = (Rec.mk "A" 10000 0).idcuenta ∧
    (Rec.mk "A" 10000 0).fecha - (Rec.mk "A" 9500 1800).fecha ≤ hoursToSeconds 24 ∧
    (Rec.mk "A" 9500 1800).fecha - (Rec.mk "A" 10000 0).fecha ≤ hoursToSeconds 24 :=
  c5_dif_importe_filter [⟨"A", 10000, 0⟩] [⟨"A", 9500, 1800⟩] 24
    (⟨"A", 10000, 0⟩, ⟨"A", 9500, 1800⟩) (by decide)

/-- C6 counterexample: the grouping key is built by string concatenation, so
the records (account "A", amount 10.00) and (account "A1", amount 0.00) — with
accounts of different lengths and different amounts — receive the same key
"A10.0". -/
theorem c6_key_collision :
    keyOf ⟨"A", 1000, 0⟩ = keyOf ⟨"A1", 0, 0⟩ ∧
    keyOf ⟨"A", 1000, 0⟩ = "A10.0" ∧
    (Rec.mk "A" 1000 0).idcuenta.length = 1 ∧
    (Rec.mk "A1" 0 0).idcuenta.length = 2 ∧
    (Rec.mk "A" 1000 0).importe = 1000 ∧
    (Rec.mk "A1" 0 0).importe = 0 := by
  decide

/-- C6 amended: identical account and amount always give the same MatchKey;
the converse fails because the key concatenates the account string with the
amount string (see the counterexample). -/
theorem c6_key_of_account_amount (r1 r2 : Rec) (h1 : r1.idcuenta = r2.idcuenta)
    (h2 : r1.importe = r2.importe) : keyOf r1 = keyOf r2 :=
  keyOf_congr h1 h2

/-- C6 amended, witness: two records sharing account "B" and amount 2.50 at
different timestamps share their key. -/
theorem c6_key_of_account_amount_witness :
    keyOf ⟨"B", 250, 7⟩ = keyOf ⟨"B", 250, 99⟩ :=
  c6_key_of_account_amount ⟨"B", 250, 7⟩ ⟨"B", 250, 99⟩ rfl rfl

/-- C7 counterexample: with two bank rows A/10.00 at t=0 and t=100 and a
single sale A/10.00 at t=50, the asof join pairs the one sale record with both
bank rows, so a sale appears in two distinct matched pairs. -/
theorem c7_sale_paired_twice :
    (conciliar [⟨"A", 1000, 0⟩, ⟨"A", 1000, 100⟩] [⟨"A", 1000, 50⟩] 24).conciliados_tol
      = [(⟨"A", 1000, 0⟩, some ⟨"A", 1000, 50⟩),
         (⟨"A", 1000, 100⟩, some ⟨"A", 1000, 50⟩)] := by
  decide

/-- C7 amended: uniqueness of consumption holds on the bank side, not the sale
side: the bank components of the matched rows are a permutation of the bank
input (each bank record heads exactly one row), while a sale record may be
selected by several bank rows. -/
theorem c7_bank_side_unique (banco ventas : List Rec) (h : Nat) :
    ((conciliar banco ventas h).conciliados_tol.map Prod.fst).Perm banco := by
  simp only [conciliar, mergeAsof, List.map_map]
  have hid : ((fun p : Rec × Option Rec => p.fst) ∘
      fun l : Rec => (l, asofNearest keyOf (hoursToSeconds h) (sortFecha ventas) l))
      = id := rfl
  rw [hid, List.map_id]
  exact List.perm_insertionSort fle banco

/-- C8: the matched output is the bank input sorted by timestamp, one row per
bank record (records that found no sale keep a null sale side), so its length
always equals the bank input's length. -/
theorem c8_one_row_per_bank (banco ventas : List Rec) (h : Nat) :
    (conciliar banco ventas h).conciliados_tol.map Prod.fst = sortFecha banco ∧
    (conciliar banco ventas h).conciliados_tol.length = banco.length := by
  constructor
  · simp only [conciliar, mergeAsof, List.map_map]
    have hid : ((fun p : Rec × Option Rec => p.fst) ∘
        fun l : Rec => (l, asofNearest keyOf (hoursToSeconds h) (sortFecha ventas) l))
        = id := rfl
    rw [hid, List.map_id]
  · simp only [conciliar, mergeAsof, List.length_map]
    exact (List.perm_insertionSort fle banco).length_eq

/-- C9: a call to `conciliar` hands back the caller's two input frames
unchanged — the function copies them on entry and mutates only the copies. -/
theorem c9_inputs_unchanged (banco ventas : List Rec) (h : Nat) :
    (conciliarCall banco ventas h).snd = (banco, ventas) := rfl

/-- C10: `conciliar` is a total function of its inputs (it is defined for all
record lists and tolerances), and on two empty inputs all four outputs are
empty. -/
theorem c10_empty_inputs (h : Nat) : conciliar [] [] h = ⟨[], [], [], []⟩ := rfl

end Conciliacion
